import Mathlib

/-!
A verification development for the audio-htmls report generator
(`src/main.py`, by-language mode, and `src/build_audio_pages.py`,
by-provider mode).  The Python sources are shallowly embedded: the
filesystem traversal is modelled as the list of entries it yields, CSV
files as lists of cell rows, and every Python function with decision
logic (audio indexer, record loader, audio resolver, voice
deduplication, language-name lookup, and the two `main` drivers) is
translated into an executable Lean definition.  Strings are compared,
folded and trimmed exactly as Python does on the ASCII data the tool
processes.
-/

/-- Python `str.strip()` on a character list: drop whitespace from both ends. -/
def pyStripL (cs : List Char) : List Char :=
  ((cs.dropWhile Char.isWhitespace).reverse.dropWhile Char.isWhitespace).reverse

/-- Python `s.strip()`. -/
def pyStrip (s : String) : String := ⟨pyStripL s.data⟩

/-- Python `s.lower()` (ASCII case folding; the tool's data is ASCII). -/
def pyLower (s : String) : String := ⟨s.data.map Char.toLower⟩

/-- Python `s.upper()`. -/
def pyUpper (s : String) : String := ⟨s.data.map Char.toUpper⟩

/-- Python `s.replace('_', ' ')` (single-character pattern, so a map). -/
def pyUnderscoreToSpace (s : String) : String :=
  ⟨s.data.map (fun c => if c = '_' then ' ' else c)⟩

/-- Helper for Python `s.title()`: the boolean records whether the previous
character was alphabetic. -/
def pyTitleAux : List Char → Bool → List Char
  | [], _ => []
  | c :: cs, prevAlpha =>
    (if c.isAlpha then (if prevAlpha then c.toLower else c.toUpper) else c)
      :: pyTitleAux cs c.isAlpha

/-- Python `s.title()` (ASCII): uppercase each letter that follows a
non-letter, lowercase the other letters. -/
def pyTitle (s : String) : String := ⟨pyTitleAux s.data false⟩

theorem dropWhile_dropWhile_same (p : α → Bool) (l : List α) :
    (l.dropWhile p).dropWhile p = l.dropWhile p := by
  induction l with
  | nil => rfl
  | cons a l ih =>
    by_cases h : p a
    · simp [List.dropWhile_cons, h, ih]
    · simp [List.dropWhile_cons, h]

theorem head?_dropWhile_false (p : α → Bool) (l : List α) (c : α)
    (h : (l.dropWhile p).head? = some c) : p c = false := by
  induction l with
  | nil => simp [List.dropWhile] at h
  | cons a l ih =>
    by_cases ha : p a
    · rw [List.dropWhile_cons, if_pos ha] at h
      exact ih h
    · rw [List.dropWhile_cons, if_neg ha] at h
      simp at h
      rw [← h]
      exact Bool.eq_false_iff.mpr ha

theorem dropWhile_eq_self_of_head? (p : α → Bool) (l : List α)
    (h : ∀ c, l.head? = some c → p c = false) : l.dropWhile p = l := by
  cases l with
  | nil => rfl
  | cons a l =>
    have := h a rfl
    rw [List.dropWhile_cons, if_neg (by simp [this])]

theorem getLast?_of_getLast?_dropWhile (p : α → Bool) (l : List α) (c : α)
    (h : (l.dropWhile p).getLast? = some c) : l.getLast? = some c := by
  induction l with
  | nil => simp [List.dropWhile] at h
  | cons a l ih =>
    by_cases ha : p a
    · rw [List.dropWhile_cons, if_pos ha] at h
      have hl := ih h
      cases l with
      | nil => simp at hl
      | cons b t => rw [List.getLast?_cons_cons]; exact hl
    · rw [List.dropWhile_cons, if_neg ha] at h
      exact h

theorem pyStripL_idem (cs : List Char) : pyStripL (pyStripL cs) = pyStripL cs := by
  have key : ∀ x : List Char,
      ((x.dropWhile Char.isWhitespace).reverse.dropWhile Char.isWhitespace).reverse.dropWhile
        Char.isWhitespace
      = ((x.dropWhile Char.isWhitespace).reverse.dropWhile Char.isWhitespace).reverse := by
    intro x
    apply dropWhile_eq_self_of_head?
    intro c hc
    rw [List.head?_reverse] at hc
    have h2 := getLast?_of_getLast?_dropWhile Char.isWhitespace
      (x.dropWhile Char.isWhitespace).reverse c hc
    rw [List.getLast?_reverse] at h2
    exact head?_dropWhile_false Char.isWhitespace x c h2
  show ((((pyStripL cs).dropWhile Char.isWhitespace).reverse).dropWhile
      Char.isWhitespace).reverse = pyStripL cs
  unfold pyStripL
  rw [key cs, List.reverse_reverse, dropWhile_dropWhile_same]

theorem pyStrip_idem (s : String) : pyStrip (pyStrip s) = pyStrip s :=
  congrArg String.mk (pyStripL_idem s.data)

theorem pyStrip_empty : pyStrip "" = "" := rfl

theorem pyLower_empty : pyLower "" = "" := rfl

theorem pyLower_eq_empty_iff (s : String) : pyLower s = "" ↔ s = "" := by
  rw [String.ext_iff, String.ext_iff]
  show s.data.map Char.toLower = [] ↔ s.data = []
  simp

/-- Split a character list at every occurrence of `sep`, keeping empty
pieces, as Python `str.split(sep)` does for a one-character separator. -/
def splitCharL (sep : Char) : List Char → List (List Char)
  | [] => [[]]
  | c :: cs =>
    match splitCharL sep cs with
    | [] => [[]]
    | g :: gs => if c = sep then [] :: g :: gs else (c :: g) :: gs

/-- Python `s.split(sep)` for a one-character separator. -/
def splitOnChar (sep : Char) (s : String) : List String :=
  (splitCharL sep s.data).map String.mk

/-- `pathlib.PurePath(p).name` for a well-formed relative POSIX path
(no trailing separator): the part after the last slash. -/
def baseNameOf (p : String) : String := (splitOnChar '/' p).getLastD ""

/-- `pathlib.PurePath(p).suffix` of a final path component: the last
dot-separated piece with its dot, unless the dot is the component's first
or last character. -/
def pySuffix (name : String) : String :=
  match splitOnChar '.' name with
  | [] => ""
  | [_] => ""
  | ["", _] => ""
  | parts => match parts.getLastD "" with
    | "" => ""
    | last => "." ++ last

/-- `pathlib.PurePath(p).stem` of a final path component: the component
without its `pySuffix`. -/
def pyStem (name : String) : String :=
  ⟨name.data.take (name.data.length - (pySuffix name).data.length)⟩

/-- Python string comparison on character lists: lexicographic by code
point, a shorter list preceding its extensions. -/
def strLtb : List Char → List Char → Bool
  | [], [] => false
  | [], _ :: _ => true
  | _ :: _, [] => false
  | a :: as, b :: bs =>
    if a.toNat < b.toNat then true
    else if b.toNat < a.toNat then false
    else strLtb as bs

/-- Python `s < t` on strings. -/
def strLt (s t : String) : Bool := strLtb s.data t.data

/-- Python `False < True` on booleans. -/
def boolLt (a b : Bool) : Bool := !a && b

/-- Lexicographic combination of two strict comparators, as Python tuple
comparison does componentwise. -/
def lexLt (ltA : α → α → Bool) (ltB : β → β → Bool) (x y : α × β) : Bool :=
  ltA x.1 y.1 || (!ltA x.1 y.1 && !ltA y.1 x.1 && ltB x.2 y.2)

/-- A boolean comparator that behaves like the strict part of a linear
order: asymmetric, transitive, and connected (incomparable values are
equal).  Python's `sorted` keys satisfy this. -/
structure StrictCmp (lt : α → α → Bool) : Prop where
  asym : ∀ x y, lt x y = true → lt y x = false
  trans : ∀ x y z, lt x y = true → lt y z = true → lt x z = true
  conn : ∀ x y, lt x y = false → lt y x = false → x = y

theorem StrictCmp.irrefl {α : Sort u} {lt : α → α → Bool} (h : StrictCmp lt) (x : α) :
    lt x x = false := by
  cases hx : lt x x with
  | false => rfl
  | true => exact absurd hx (by simp [h.asym x x hx])

theorem StrictCmp.le_trans {α : Sort u} {lt : α → α → Bool} (h : StrictCmp lt) {x y z : α}
    (h1 : lt y x = false) (h2 : lt z y = false) : lt z x = false := by
  cases hzx : lt z x with
  | false => rfl
  | true =>
    cases hyz : lt y z with
    | true => exact absurd (h.trans y z x hyz hzx) (by simp [h1])
    | false => exact absurd hzx (by simp [h.conn z y h2 hyz ▸ h1])

theorem StrictCmp.lt_of_lt_of_nlt {α : Sort u} {lt : α → α → Bool} (h : StrictCmp lt) {x y z : α}
    (h1 : lt x y = true) (h2 : lt z y = false) : lt x z = true := by
  cases hyz : lt y z with
  | true => exact h.trans x y z h1 hyz
  | false => exact (h.conn y z hyz h2) ▸ h1

theorem StrictCmp.lt_of_nlt_of_lt {α : Sort u} {lt : α → α → Bool} (h : StrictCmp lt) {x y z : α}
    (h1 : lt y x = false) (h2 : lt y z = true) : lt x z = true := by
  cases hxy : lt x y with
  | true => exact h.trans x y z hxy h2
  | false => exact (h.conn x y hxy h1) ▸ h2

theorem strictCmp_boolLt : StrictCmp boolLt := by
  refine ⟨?_, ?_, ?_⟩ <;> decide

theorem strLtb_asym (x y : List Char) (h : strLtb x y = true) : strLtb y x = false := by
  induction x generalizing y with
  | nil =>
    cases y with
    | nil => simp [strLtb] at h
    | cons b bs => simp [strLtb]
  | cons a as ih =>
    cases y with
    | nil => simp [strLtb] at h
    | cons b bs =>
      by_cases hab : a.toNat < b.toNat
      · simp [strLtb, hab, Nat.lt_asymm hab, Nat.ne_of_gt hab]
      · by_cases hba : b.toNat < a.toNat
        · simp [strLtb, hab, hba] at h
        · simp [strLtb, hab, hba] at h ⊢
          exact ih bs h


theorem strLtb_cons_iff (a b : Char) (as bs : List Char) :
    strLtb (a :: as) (b :: bs) = true ↔
      a.toNat < b.toNat ∨ (a.toNat = b.toNat ∧ strLtb as bs = true) := by
  simp only [strLtb]
  by_cases hab : a.toNat < b.toNat
  · simp [hab]
  · by_cases hba : b.toNat < a.toNat
    · simp [hab, hba]
      omega
    · have heq : a.toNat = b.toNat := by omega
      simp [hab, hba, heq]

theorem strLtb_trans (x y z : List Char) (h1 : strLtb x y = true)
    (h2 : strLtb y z = true) : strLtb x z = true := by
  induction x generalizing y z with
  | nil =>
    cases z with
    | nil =>
      cases y with
      | nil => simp [strLtb] at h1
      | cons b bs => simp [strLtb] at h2
    | cons c cs => simp [strLtb]
  | cons a as ih =>
    cases y with
    | nil => simp [strLtb] at h1
    | cons b bs =>
      cases z with
      | nil => simp [strLtb] at h2
      | cons c cs =>
        rw [strLtb_cons_iff] at h1 h2 ⊢
        rcases h1 with h1 | ⟨he1, hs1⟩
        · rcases h2 with h2 | ⟨he2, _⟩
          · exact Or.inl (Nat.lt_trans h1 h2)
          · exact Or.inl (he2 ▸ h1)
        · rcases h2 with h2 | ⟨he2, hs2⟩
          · exact Or.inl (he1 ▸ h2)
          · exact Or.inr ⟨he1.trans he2, ih bs cs hs1 hs2⟩

theorem strLtb_conn (x y : List Char) (h1 : strLtb x y = false)
    (h2 : strLtb y x = false) : x = y := by
  induction x generalizing y with
  | nil =>
    cases y with
    | nil => rfl
    | cons b bs => simp [strLtb] at h1
  | cons a as ih =>
    cases y with
    | nil => simp [strLtb] at h2
    | cons b bs =>
      rw [Bool.eq_false_iff, ne_eq, strLtb_cons_iff] at h1 h2
      push_neg at h1 h2
      have hab : a.toNat = b.toNat := Nat.le_antisymm h2.1 h1.1
      have hchar : a = b := Char.eq_of_val_eq (by
        apply UInt32.eq_of_val_eq
        apply Fin.ext
        exact hab)
      have htail : as = bs :=
        ih bs (Bool.eq_false_iff.mpr (h1.2 hab)) (Bool.eq_false_iff.mpr (h2.2 hab.symm))
      rw [hchar, htail]

theorem strictCmp_strLt : StrictCmp strLt := by
  constructor
  · intro x y h
    exact strLtb_asym x.data y.data h
  · intro x y z h1 h2
    exact strLtb_trans x.data y.data z.data h1 h2
  · intro x y h1 h2
    cases x with
    | mk dx =>
      cases y with
      | mk dy =>
        rw [strLtb_conn dx dy h1 h2]

theorem lexLt_true_iff (ltA : α → α → Bool) (ltB : β → β → Bool) (x y : α × β) :
    lexLt ltA ltB x y = true ↔
      ltA x.1 y.1 = true ∨
        (ltA x.1 y.1 = false ∧ ltA y.1 x.1 = false ∧ ltB x.2 y.2 = true) := by
  cases h1 : ltA x.1 y.1 <;> cases h2 : ltA y.1 x.1 <;> cases h3 : ltB x.2 y.2 <;>
    simp [lexLt, h1, h2, h3]

theorem lexLt_false_parts (ltA : α → α → Bool) (ltB : β → β → Bool) (x y : α × β)
    (h : lexLt ltA ltB x y = false) :
    ltA x.1 y.1 = false ∧ (ltA y.1 x.1 = true ∨ ltB x.2 y.2 = false) := by
  cases h1 : ltA x.1 y.1 <;> cases h2 : ltA y.1 x.1 <;> cases h3 : ltB x.2 y.2 <;>
    simp [lexLt, h1, h2, h3] at h ⊢

theorem strictCmp_lexLt (hA : StrictCmp ltA) (hB : StrictCmp ltB) :
    StrictCmp (lexLt ltA ltB) := by
  constructor
  · rintro ⟨x1, x2⟩ ⟨y1, y2⟩ h
    rcases (lexLt_true_iff ltA ltB _ _).mp h with h1 | ⟨h1, h2, h3⟩
    · simp [lexLt, hA.asym _ _ h1, h1]
    · simp [lexLt, h1, h2, hB.asym _ _ h3]
  · rintro ⟨x1, x2⟩ ⟨y1, y2⟩ ⟨z1, z2⟩ h1 h2
    rcases (lexLt_true_iff ltA ltB _ _).mp h1 with hxy | ⟨nxy, nyx, bxy⟩ <;>
      rcases (lexLt_true_iff ltA ltB _ _).mp h2 with hyz | ⟨nyz, nzy, byz⟩
    · simp [lexLt, hA.trans _ _ _ hxy hyz]
    · have := hA.conn y1 z1 nyz nzy
      simp [lexLt, this ▸ hxy]
    · have := hA.conn x1 y1 nxy nyx
      simp [lexLt, this ▸ hyz]
    · have e1 := hA.conn x1 y1 nxy nyx
      have e2 := hA.conn y1 z1 nyz nzy
      subst e1
      subst e2
      simp [lexLt, hA.irrefl, hB.trans _ _ _ bxy byz]
  · rintro ⟨x1, x2⟩ ⟨y1, y2⟩ h1 h2
    obtain ⟨a1, r1⟩ := lexLt_false_parts ltA ltB _ _ h1
    obtain ⟨a2, r2⟩ := lexLt_false_parts ltA ltB _ _ h2
    have e1 : x1 = y1 := hA.conn x1 y1 a1 a2
    have b1 : ltB x2 y2 = false := by
      rcases r1 with h | h
      · exact absurd h (by simp [a2])
      · exact h
    have b2 : ltB y2 x2 = false := by
      rcases r2 with h | h
      · exact absurd h (by simp [a1])
      · exact h
    have e2 : x2 = y2 := hB.conn x2 y2 b1 b2
    rw [e1, e2]

/-- Stable insertion used to model Python `sorted(..., key=key)`: `a` goes
after every element whose key is strictly below `a`'s and before the rest,
so elements with equal keys keep their relative order. -/
def insertSorted (key : α → κ) (kLt : κ → κ → Bool) (a : α) : List α → List α
  | [] => [a]
  | b :: l => if kLt (key b) (key a) then b :: insertSorted key kLt a l else a :: b :: l

/-- Python `sorted(l, key=key)` under the strict comparator `kLt`: the
stable sort of `l` by key, realized as right-fold insertion (Python's
sort is stable, and all stable sorts by the same key agree). -/
def pySorted (key : α → κ) (kLt : κ → κ → Bool) (l : List α) : List α :=
  l.foldr (insertSorted key kLt) []

theorem insertSorted_perm (key : α → κ) (kLt : κ → κ → Bool) (a : α) (l : List α) :
    (insertSorted key kLt a l).Perm (a :: l) := by
  induction l with
  | nil => exact List.Perm.refl _
  | cons b l ih =>
    by_cases h : kLt (key b) (key a) = true
    · rw [insertSorted, if_pos h]
      exact (ih.cons b).trans (List.Perm.swap a b l)
    · rw [insertSorted, if_neg h]

theorem pySorted_perm (key : α → κ) (kLt : κ → κ → Bool) (l : List α) :
    (pySorted key kLt l).Perm l := by
  induction l with
  | nil => exact List.Perm.refl _
  | cons a l ih =>
    exact (insertSorted_perm key kLt a (pySorted key kLt l)).trans (ih.cons a)

theorem mem_pySorted (key : α → κ) (kLt : κ → κ → Bool) (l : List α) (x : α) :
    x ∈ pySorted key kLt l ↔ x ∈ l :=
  (pySorted_perm key kLt l).mem_iff

theorem pairwise_insertSorted {key : α → κ} {kLt : κ → κ → Bool} (hc : StrictCmp kLt)
    (a : α) {l : List α}
    (hl : l.Pairwise (fun x y => kLt (key y) (key x) = false)) :
    (insertSorted key kLt a l).Pairwise (fun x y => kLt (key y) (key x) = false) := by
  induction l with
  | nil => simp [insertSorted]
  | cons b l ih =>
    rw [List.pairwise_cons] at hl
    by_cases h : kLt (key b) (key a) = true
    · rw [insertSorted, if_pos h, List.pairwise_cons]
      constructor
      · intro c hcmem
        rcases List.mem_cons.mp ((insertSorted_perm key kLt a l).mem_iff.mp hcmem) with
          hca | hcl
        · rw [hca]
          exact hc.asym _ _ h
        · exact hl.1 c hcl
      · exact ih hl.2
    · rw [insertSorted, if_neg h, List.pairwise_cons]
      refine ⟨?_, List.pairwise_cons.mpr hl⟩
      intro c hcmem
      rcases List.mem_cons.mp hcmem with hcb | hcl
      · rw [hcb]
        exact Bool.eq_false_iff.mpr h
      · have hba' : kLt (key b) (key a) = false := Bool.eq_false_iff.mpr h
        exact hc.le_trans hba' (hl.1 c hcl)

theorem pairwise_pySorted {key : α → κ} {kLt : κ → κ → Bool} (hc : StrictCmp kLt)
    (l : List α) :
    (pySorted key kLt l).Pairwise (fun x y => kLt (key y) (key x) = false) := by
  induction l with
  | nil => simp [pySorted]
  | cons a l ih => exact pairwise_insertSorted hc a ih

theorem insertSorted_eq_cons {key : α → κ} {kLt : κ → κ → Bool} (a : α) {l : List α}
    (h : ∀ b ∈ l, kLt (key b) (key a) = false) :
    insertSorted key kLt a l = a :: l := by
  cases l with
  | nil => rfl
  | cons b l => rw [insertSorted, if_neg (by simp [h b (List.mem_cons_self b l)])]

theorem filter_insertSorted {key : α → κ} {kLt : κ → κ → Bool} (hc : StrictCmp kLt)
    (p : α → Bool) (a : α) {l : List α}
    (hl : l.Pairwise (fun x y => kLt (key y) (key x) = false)) :
    (insertSorted key kLt a l).filter p =
      if p a then insertSorted key kLt a (l.filter p) else l.filter p := by
  induction l with
  | nil => cases h : p a <;> simp [insertSorted, List.filter, h]
  | cons b l ih =>
    rw [List.pairwise_cons] at hl
    have ih' := ih hl.2
    by_cases hba : kLt (key b) (key a) = true
    · rw [insertSorted, if_pos hba, List.filter_cons, List.filter_cons]
      cases hpb : p b with
      | true =>
        rw [if_pos rfl, if_pos rfl, ih']
        cases hpa : p a with
        | true => rw [if_pos rfl, if_pos rfl, insertSorted, if_pos hba]
        | false => rw [if_neg Bool.false_ne_true, if_neg Bool.false_ne_true]
      | false =>
        rw [if_neg Bool.false_ne_true, if_neg Bool.false_ne_true, ih']
    · rw [insertSorted, if_neg hba]
      cases hpa : p a with
      | true =>
        have hcons : insertSorted key kLt a ((b :: l).filter p)
            = a :: (b :: l).filter p := by
          apply insertSorted_eq_cons
          intro c hcmem
          have hba' : kLt (key b) (key a) = false := Bool.eq_false_iff.mpr hba
          rcases List.mem_cons.mp (List.mem_of_mem_filter hcmem) with hcb | hcl
          · rw [hcb]
            exact hba'
          · exact hc.le_trans hba' (hl.1 c hcl)
        rw [if_pos rfl, hcons]
        simp [List.filter_cons, hpa]
      | false =>
        rw [if_neg Bool.false_ne_true]
        simp [List.filter_cons, hpa]

theorem filter_pySorted {key : α → κ} {kLt : κ → κ → Bool} (hc : StrictCmp kLt)
    (p : α → Bool) (l : List α) :
    (pySorted key kLt l).filter p = pySorted key kLt (l.filter p) := by
  induction l with
  | nil => rfl
  | cons a l ih =>
    show (insertSorted key kLt a (pySorted key kLt l)).filter p = _
    rw [filter_insertSorted hc p a (pairwise_pySorted hc l), ih, List.filter_cons]
    cases hpa : p a with
    | true => simp [pySorted]
    | false => simp [pySorted]

theorem insertSorted_congr {key₁ key₂ : α → κ} {kLt : κ → κ → Bool} (a : α)
    {l : List α} (ha : key₁ a = key₂ a) (h : ∀ x ∈ l, key₁ x = key₂ x) :
    insertSorted key₁ kLt a l = insertSorted key₂ kLt a l := by
  induction l with
  | nil => rfl
  | cons b l ih =>
    rw [insertSorted, insertSorted, ha, h b (List.mem_cons_self b l)]
    by_cases hb : kLt (key₂ b) (key₂ a) = true
    · rw [if_pos hb, if_pos hb, ih (fun x hx => h x (List.mem_cons_of_mem b hx))]
    · rw [if_neg hb, if_neg hb]

theorem pySorted_congr {key₁ key₂ : α → κ} {kLt : κ → κ → Bool} {l : List α}
    (h : ∀ x ∈ l, key₁ x = key₂ x) :
    pySorted key₁ kLt l = pySorted key₂ kLt l := by
  induction l with
  | nil => rfl
  | cons a l ih =>
    show insertSorted key₁ kLt a (pySorted key₁ kLt l)
        = insertSorted key₂ kLt a (pySorted key₂ kLt l)
    rw [ih (fun x hx => h x (List.mem_cons_of_mem a hx))]
    exact insertSorted_congr a (h a (List.mem_cons_self a l))
      (fun x hx => h x (List.mem_cons_of_mem a
        ((mem_pySorted key₂ kLt l x).mp hx)))

/-- Association-list lookup modelling a Python dict whose keys are
inserted at most once (first binding wins). -/
def alookup : List (String × α) → String → Option α
  | [], _ => none
  | p :: ps, k => if p.1 = k then some p.2 else alookup ps k

theorem alookup_append (m m₂ : List (String × α)) (k : String) :
    alookup (m ++ m₂) k =
      match alookup m k with
      | some r => some r
      | none => alookup m₂ k := by
  induction m with
  | nil => rfl
  | cons p ps ih =>
    by_cases h : p.1 = k
    · simp [alookup, h]
    · simp [alookup, h, ih]

/-- Python `s.endswith(t)`. -/
def pyEndsWith (s t : String) : Bool := t.data.isSuffixOf s.data

/-- One entry yielded by `root.rglob('*')`: its path relative to the root
(POSIX form), whether it is a regular file, and — when it is a tabular
file — its parsed cell rows.  The list order is the traversal order. -/
structure FsEntry where
  rel : String
  isFile : Bool
  content : List (List String)
deriving DecidableEq

/-- `AUDIO_EXTS = {'.aac', '.acc', '.m4a'}`.  The Python value is a set
whose iteration order is unspecified; the fixed list order only matters
for the resolver's extension-substitution step. -/
def AUDIO_EXTS : List String := [".aac", ".acc", ".m4a"]

/-- The scan filter of `scan_audio_files`: a regular file whose final
component's extension, lowercased, is an allowed audio extension. -/
def isAudioFile (e : FsEntry) : Bool :=
  e.isFile && AUDIO_EXTS.contains (pyLower (pySuffix (baseNameOf e.rel)))

/-- Lowercased basename, the audio index key of a file. -/
def audioKeyOf (e : FsEntry) : String := pyLower (baseNameOf e.rel)

/-- The loop of `scan_audio_files` (identical in both scripts): walk the
traversal, send the first file of each key to the mapping and every later
file with that key to the duplicate list. -/
def scanAux : List FsEntry → List (String × String) → List (String × String) →
    List (String × String) × List (String × String)
  | [], m, d => (m, d)
  | e :: es, m, d =>
    if isAudioFile e then
      if (alookup m (audioKeyOf e)).isSome then
        scanAux es m (d ++ [(audioKeyOf e, e.rel)])
      else
        scanAux es (m ++ [(audioKeyOf e, e.rel)]) d
    else
      scanAux es m d

/-- `scan_audio_files`: index audio files by lowercased basename; the
duplicates are the later files whose key was already mapped, as flat
`(key, relpath)` observations in traversal order. -/
def scan_audio_files (es : List FsEntry) : List (String × String) × List (String × String) :=
  scanAux es [] []

/-- `find_csvs` = `root.rglob('*.csv')`: entries whose name matches the
glob (the model keeps only regular files; a directory named `*.csv`
would crash the Python program at `open`, outside any claim). -/
def find_csvs (es : List FsEntry) : List FsEntry :=
  es.filter (fun e => e.isFile && pyEndsWith (baseNameOf e.rel) ".csv")

/-- `(root / filename).exists() and (root / filename).is_file()` for a
well-formed relative POSIX `filename`: a regular file with exactly that
relative path is in the traversal. -/
def fileExistsAt (es : List FsEntry) (path : String) : Bool :=
  es.any (fun e => e.isFile && e.rel == path)

/-- `resolve_audio_path` (identical in both scripts): empty filename →
miss; literal relative path exists → hit; lowercased basename indexed →
hit; stem plus each allowed extension indexed → hit; otherwise a miss
returning the original filename string with a `false` flag. -/
def resolve_audio_path (es : List FsEntry) (filename : String)
    (audio_index : List (String × String)) : String × Bool :=
  if filename = "" then (filename, false)
  else if fileExistsAt es filename then (filename, true)
  else
    match alookup audio_index (pyLower (baseNameOf filename)) with
    | some rel => (rel, true)
    | none =>
      match AUDIO_EXTS.findSome? (fun ext =>
          alookup audio_index (pyLower (pyStem (baseNameOf filename) ++ ext))) with
      | some rel => (rel, true)
      | none => (filename, false)

/-- One row of a tabular source, with its provenance and the derived
resolution result.  Python stores these as dicts; the dict key `exists`
is a Lean keyword and is embedded as the field `present`. -/
structure SampleRecord where
  source_csv : String
  rownum : Nat
  lang : String
  engine : String
  voice : String
  gender : String
  filename : String
  relpath : String
  present : Bool
deriving DecidableEq

/-- Index of the last occurrence of `x`, modelling which binding survives
in a Python dict built by `zip` when keys repeat. -/
def lastIdxOf (x : String) : List String → Option Nat
  | [] => none
  | y :: ys =>
    match lastIdxOf x ys with
    | some i => some (i + 1)
    | none => if y = x then some 0 else none

/-- `csv.DictReader` row lookup under an original header name: the cell at
the header's (last) column, `none` when the row is short (`restval`). -/
def rowGetOrig (fieldnames cells : List String) (orig : String) : Option String :=
  match lastIdxOf orig fieldnames with
  | none => none
  | some i => cells.get? i

/-- `field_map.get(key, key)`: the last original header whose trimmed,
lowercased form equals `key`, else `key` itself. -/
def fieldMapGet (fieldnames : List String) (key : String) : String :=
  match (fieldnames.filter (fun k => pyLower (pyStrip k) == key)).getLast? with
  | some k => k
  | none => key

/-- `get(row, key)` in both loaders: `norm(row.get(field_map.get(key, key), ''))`. -/
def csvGet (fieldnames cells : List String) (key : String) : String :=
  pyStrip ((rowGetOrig fieldnames cells (fieldMapGet fieldnames key)).getD "")

/-- `x or 'unknown'` on a string. -/
def orUnknown (s : String) : String := if s = "" then "unknown" else s

/-- `read_rows_from_csv` of `src/main.py`: a file with no header row (no
rows at all, or a blank first line, which gives `DictReader` falsy
`fieldnames`) yields zero records; each non-blank data row becomes one
record with trimmed fields, `lang`/`engine` defaulting to `"unknown"`. -/
def read_rows_from_csv (source : String) (file : List (List String)) : List SampleRecord :=
  match file with
  | [] => []
  | fieldnames :: dataRows =>
    if fieldnames = [] then []
    else
      (dataRows.filter (fun r => !r.isEmpty)).enum.map (fun p =>
        { source_csv := source
          rownum := p.1 + 2
          lang := orUnknown (csvGet fieldnames p.2 "lang")
          engine := orUnknown (csvGet fieldnames p.2 "engine")
          voice := csvGet fieldnames p.2 "voice"
          gender := csvGet fieldnames p.2 "gender"
          filename := csvGet fieldnames p.2 "filename"
          relpath := ""
          present := false })

namespace BAP

/-- `read_rows_from_csv` of `src/build_audio_pages.py`: as the by-language
loader but with no `"unknown"` defaulting of `lang`/`engine`. -/
def read_rows_from_csv (source : String) (file : List (List String)) : List SampleRecord :=
  match file with
  | [] => []
  | fieldnames :: dataRows =>
    if fieldnames = [] then []
    else
      (dataRows.filter (fun r => !r.isEmpty)).enum.map (fun p =>
        { source_csv := source
          rownum := p.1 + 2
          lang := csvGet fieldnames p.2 "lang"
          engine := csvGet fieldnames p.2 "engine"
          voice := csvGet fieldnames p.2 "voice"
          gender := csvGet fieldnames p.2 "gender"
          filename := csvGet fieldnames p.2 "filename"
          relpath := ""
          present := false })

end BAP

/-- `engine_slug(e) = (e or 'unknown').strip().lower()`. -/
def engine_slug (e : String) : String :=
  pyLower (pyStrip (if e = "" then "unknown" else e))

/-- The voice key: `norm(e.get('voice','')).lower()` — the case-folded,
trimmed voice identifier. -/
def voiceKeyOf (r : SampleRecord) : String := pyLower (pyStrip r.voice)

/-- Strict comparator for the four-component sort keys used by
`dedupe_by_voice`, combining Python tuple comparison componentwise. -/
def dedupKeyLt : Bool × String × String × String → Bool × String × String × String → Bool :=
  lexLt boolLt (lexLt strLt (lexLt strLt strLt))

theorem strictCmp_dedupKeyLt : StrictCmp dedupKeyLt :=
  strictCmp_lexLt strictCmp_boolLt
    (strictCmp_lexLt strictCmp_strLt (strictCmp_lexLt strictCmp_strLt strictCmp_strLt))

/-- The sort key of `dedupe_by_voice` as written in the code:
`(not exists, engine_slug(engine), voice or '', filename or '')`. -/
def dedupSortKey (e : SampleRecord) : Bool × String × String × String :=
  (!e.present, engine_slug e.engine, e.voice, e.filename)

/-- The ordering of the specification's dedup-retention sentence, taken
from its words: presence flag descending (present beats absent), provider
name case-folded ascending, voice string ascending, filename ascending.
`!present` ascending is presence descending. -/
def specDedupKey (e : SampleRecord) : Bool × String × String × String :=
  (!e.present, pyLower e.engine, e.voice, e.filename)

/-- The scan loop of `dedupe_by_voice` over the sorted entries: keep every
record whose voice key is empty; keep the first record of each non-empty
voice key and drop the rest. -/
def dedupeLoop : List SampleRecord → List String → List SampleRecord
  | [], _ => []
  | e :: l, seen =>
    if voiceKeyOf e = "" then e :: dedupeLoop l seen
    else if voiceKeyOf e ∈ seen then dedupeLoop l seen
    else e :: dedupeLoop l (voiceKeyOf e :: seen)

/-- `dedupe_by_voice` of `src/main.py`. -/
def dedupe_by_voice (entries : List SampleRecord) : List SampleRecord :=
  dedupeLoop (pySorted dedupSortKey dedupKeyLt entries) []

/-- The static language-code to display-name table of `src/main.py`
(`CODE_TO_NAME`); the source dict literal repeats the key `yue-HK` with
the same value, so first-binding lookup agrees with the Python dict. -/
def CODE_TO_NAME : List (String × String) := [
  ("sq-AL", "Albanian"),
  ("am-ET", "Amharic"),
  ("ar-DZ", "Arabic (Algeria)"),
  ("ar-BH", "Arabic (Bahrain)"),
  ("ar-EG", "Arabic (Egypt)"),
  ("ar-IQ", "Arabic (Iraq)"),
  ("ar-JO", "Arabic (Jordan)"),
  ("ar-KW", "Arabic (Kuwait)"),
  ("ar-LB", "Arabic (Lebanon)"),
  ("ar-LY", "Arabic (Libya)"),
  ("ar-MA", "Arabic (Morocco)"),
  ("ar-OM", "Arabic (Oman)"),
  ("ar-QA", "Arabic (Qatar)"),
  ("ar-SA", "Arabic (Saudi Arabia)"),
  ("ar-SY", "Arabic (Syria)"),
  ("ar-TN", "Arabic (Tunisia)"),
  ("ar-AE", "Arabic (United Arab Emirates)"),
  ("ar-YE", "Arabic (Yemen)"),
  ("hy-AM", "Armenian"),
  ("bs-BA", "Bosnian"),
  ("bg-BG", "Bulgarian"),
  ("my-MM", "Burmese"),
  ("ca-ES", "Catalan"),
  ("zh-CN", "Chinese (China)"),
  ("zh-HK", "Chinese (Hong Kong SAR China)"),
  ("zh-TW", "Chinese (Taiwan)"),
  ("hr-HR", "Croatian"),
  ("cs-CZ", "Czech"),
  ("da-DK", "Danish"),
  ("nl-BE", "Dutch (Belgium)"),
  ("nl-NL", "Dutch (Netherlands)"),
  ("en-AU", "English (Australia)"),
  ("en-CA", "English (Canada)"),
  ("en-HK", "English (Hong Kong SAR China)"),
  ("en-IN", "English (India)"),
  ("en-IE", "English (Ireland)"),
  ("en-KE", "English (Kenya)"),
  ("en-NZ", "English (New Zealand)"),
  ("en-NG", "English (Nigeria)"),
  ("en-PH", "English (Philippines)"),
  ("en-SG", "English (Singapore)"),
  ("en-ZA", "English (South Africa)"),
  ("en-TZ", "English (Tanzania)"),
  ("en-GB", "English (United Kingdom)"),
  ("en-US", "English (United States)"),
  ("et-EE", "Estonian"),
  ("fi-FI", "Finnish"),
  ("fr-BE", "French (Belgium)"),
  ("fr-CA", "French (Canada)"),
  ("fr-FR", "French (France)"),
  ("fr-CH", "French (Switzerland)"),
  ("ka-GE", "Georgian"),
  ("de-AT", "German (Austria)"),
  ("de-DE", "German (Germany)"),
  ("de-CH", "German (Switzerland)"),
  ("el-GR", "Greek"),
  ("gu-IN", "Gujarati"),
  ("he-IL", "Hebrew"),
  ("hi-IN", "Hindi"),
  ("hu-HU", "Hungarian"),
  ("is-IS", "Icelandic"),
  ("id-ID", "Indonesian"),
  ("ga-IE", "Irish"),
  ("it-IT", "Italian"),
  ("ja-JP", "Japanese"),
  ("kn-IN", "Kannada"),
  ("kk-KZ", "Kazakh"),
  ("ko-KR", "Korean"),
  ("lv-LV", "Latvian"),
  ("lt-LT", "Lithuanian"),
  ("mk-MK", "Macedonian"),
  ("ms-MY", "Malay"),
  ("ml-IN", "Malayalam"),
  ("mr-IN", "Marathi"),
  ("mn-MN", "Mongolian"),
  ("nb-NO", "Norwegian"),
  ("fa-IR", "Persian"),
  ("pl-PL", "Polish"),
  ("pt-BR", "Portuguese"),
  ("pa-IN", "Punjabi"),
  ("ro-RO", "Romanian"),
  ("ru-RU", "Russian"),
  ("sr-Latn-RS", "Serbian"),
  ("sk-SK", "Slovak"),
  ("sl-SI", "Slovenian"),
  ("so-SO", "Somali"),
  ("es-AR", "Spanish (Argentina)"),
  ("es-BO", "Spanish (Bolivia)"),
  ("es-CL", "Spanish (Chile)"),
  ("es-CO", "Spanish (Colombia)"),
  ("es-CR", "Spanish (Costa Rica)"),
  ("es-CU", "Spanish (Cuba)"),
  ("es-DO", "Spanish (Dominican Republic)"),
  ("es-EC", "Spanish (Ecuador)"),
  ("es-SV", "Spanish (El Salvador)"),
  ("es-GQ", "Spanish (Equatorial Guinea)"),
  ("es-GT", "Spanish (Guatemala)"),
  ("es-HN", "Spanish (Honduras)"),
  ("es-MX", "Spanish (Mexico)"),
  ("es-NI", "Spanish (Nicaragua)"),
  ("es-PA", "Spanish (Panama)"),
  ("es-PY", "Spanish (Paraguay)"),
  ("es-PE", "Spanish (Peru)"),
  ("es-PR", "Spanish (Puerto Rico)"),
  ("es-ES", "Spanish (Spain)"),
  ("es-US", "Spanish (United States)"),
  ("es-UY", "Spanish (Uruguay)"),
  ("es-VE", "Spanish (Venezuela)"),
  ("sw-KE", "Swahili (Kenya)"),
  ("sw-TZ", "Swahili (Tanzania)"),
  ("sv-SE", "Swedish"),
  ("ta-IN", "Tamil (India)"),
  ("ta-MY", "Tamil (Malaysia)"),
  ("ta-SG", "Tamil (Singapore)"),
  ("ta-LK", "Tamil (Sri Lanka)"),
  ("te-IN", "Telugu"),
  ("th-TH", "Thai"),
  ("tr-TR", "Turkish"),
  ("uk-UA", "Ukrainian"),
  ("ur-IN", "Urdu (India)"),
  ("ur-PK", "Urdu (Pakistan)"),
  ("vi-VN", "Vietnamese"),
  ("cy-GB", "Welsh"),
  ("cmn-CN", "Mandarin Chinese"),
  ("cmn-TW", "Mandarin Chinese (Taiwan)"),
  ("wuu-CN", "Wu Chinese (China)"),
  ("yue-CN", "Cantonese (China)"),
  ("yue-HK", "Cantonese (Hong Kong)"),
  ("zh-CN-guangxi", "Chinese (Guangxi, China)"),
  ("zh-CN-henan", "Chinese (Henan, China)"),
  ("zh-CN-liaoning", "Chinese (Liaoning, China)"),
  ("zh-CN-shaanxi", "Chinese (Shaanxi, China)"),
  ("zh-CN-shandong", "Chinese (Shandong, China)"),
  ("zh-CN-sichuan", "Chinese (Sichuan, China)"),
  ("af-ZA", "Afrikaans (South Africa)"),
  ("ar-XA", "Arabic (Gulf)"),
  ("as-IN", "Assamese (India)"),
  ("az-AZ", "Azerbaijani (Azerbaijan)"),
  ("bn-BD", "Bengali (Bangladesh)"),
  ("bn-IN", "Bengali (India)"),
  ("en-GB-WLS", "English (United Kingdom — Wales)"),
  ("eu-ES", "Basque (Spain)"),
  ("fil-PH", "Filipino (Philippines)"),
  ("gl-ES", "Galician (Spain)"),
  ("iu-Cans-CA", "Inuktitut (Syllabics, Canada)"),
  ("iu-Latn-CA", "Inuktitut (Latin, Canada)"),
  ("jv-ID", "Javanese (Indonesia)"),
  ("km-KH", "Khmer (Cambodia)"),
  ("lo-LA", "Lao (Laos)"),
  ("mt-MT", "Maltese (Malta)"),
  ("ne-NP", "Nepali (Nepal)"),
  ("or-IN", "Odia (India)"),
  ("ps-AF", "Pashto (Afghanistan)"),
  ("pt-PT", "Portuguese (Portugal)"),
  ("si-LK", "Sinhala (Sri Lanka)"),
  ("sr-RS", "Serbian (Serbia)"),
  ("su-ID", "Sundanese (Indonesia)"),
  ("uz-UZ", "Uzbek (Uzbekistan)"),
  ("zu-ZA", "Zulu (South Africa)")]

/-- `'-'.join(parts)`. -/
def joinDash : List String → String
  | [] => ""
  | [s] => s
  | s :: rest => s ++ "-" ++ joinDash rest

/-- `lang_name` of `src/main.py`: trim the code; direct table lookup
first; then the `zh-CN-<region>` structural fallback rendering
`Chinese (<Region>, China)`; otherwise `code or 'unknown'`. -/
def lang_name (code : String) : String :=
  let c := pyStrip code
  match alookup CODE_TO_NAME c with
  | some n => n
  | none =>
    let parts := splitOnChar '-' c
    if 3 ≤ parts.length ∧ pyLower (parts.headD "") = "zh" ∧ pyUpper (parts.getD 1 "") = "CN"
    then
      "Chinese (" ++ pyTitle (pyUnderscoreToSpace (joinDash (parts.drop 2))) ++ ", China)"
    else if c = "" then "unknown" else c

/-- Append `a` to the group of key `k` in an insertion-ordered group list,
as inserting into a `defaultdict(list)` does. -/
def addToGroup (k : String) (a : α) : List (String × List α) → List (String × List α)
  | [] => [(k, [a])]
  | g :: gs => if g.1 = k then (g.1, g.2 ++ [a]) :: gs else g :: addToGroup k a gs

/-- Grouping through a `defaultdict(list)`: groups appear in first-seen
key order, members in traversal order. -/
def groupByKey (key : α → String) (l : List α) : List (String × List α) :=
  l.foldl (fun acc a => addToGroup (key a) a acc) []

/-- Attach the resolution result to a record:
`r['relpath'], r['exists'] = resolve_audio_path(root, r.get('filename',''), audio_index)`. -/
def resolveRecord (es : List FsEntry) (idx : List (String × String))
    (r : SampleRecord) : SampleRecord :=
  { r with
    relpath := (resolve_audio_path es r.filename idx).1
    present := (resolve_audio_path es r.filename idx).2 }

/-- The grouping key of by-language mode: `r.get('lang') or 'unknown'`. -/
def langKey (r : SampleRecord) : String := orUnknown r.lang

/-- All rows loaded by `main` of `src/main.py`, in source order. -/
def mainRows (es : List FsEntry) : List SampleRecord :=
  (find_csvs es).flatMap (fun c => read_rows_from_csv c.rel c.content)

/-- The same rows with their resolution results attached. -/
def mainResolved (es : List FsEntry) : List SampleRecord :=
  (mainRows es).map (resolveRecord es (scan_audio_files es).1)

/-- `by_lang` after the per-language deduplication pass. -/
def mainDeduped (es : List FsEntry) : List (String × List SampleRecord) :=
  (groupByKey langKey (mainResolved es)).map (fun g => (g.1, dedupe_by_voice g.2))

/-- The language groups in page-emission order:
`sorted(by_lang.items(), key=lambda kv: kv[0].lower())`. -/
def mainPages (es : List FsEntry) : List (String × List SampleRecord) :=
  pySorted (fun g => pyLower g.1) strLt (mainDeduped es)

/-- `main` of `src/main.py` (the name `main` is reserved in Lean files),
abstracted to its externally visible result:
the process exit status and the ordered `(path, page)` writes, each page
abstracted to its group key (`index` for the index page).  With no
tabular sources it returns status 2 and writes nothing; otherwise it
writes one page per language group at `<lang_code>.html` plus
`index.html` and returns 0. -/
def mainModel (es : List FsEntry) : Nat × List (String × String) :=
  if find_csvs es = [] then (2, [])
  else
    (0, (mainPages es).map (fun g => (g.1 ++ ".html", g.1)) ++ [("index.html", "index")])

namespace BAP

/-- The grouping key of by-provider mode: `r.get('engine') or 'unknown'`,
on the raw (trimmed, case-preserved) provider string. -/
def engineKey (r : SampleRecord) : String := orUnknown r.engine

/-- All rows loaded by `main` of `src/build_audio_pages.py`. -/
def mainRows (es : List FsEntry) : List SampleRecord :=
  (find_csvs es).flatMap (fun c => BAP.read_rows_from_csv c.rel c.content)

/-- The rows with resolution results attached (done inside the grouping
loop in the source; the loop order makes the two presentations equal). -/
def mainResolved (es : List FsEntry) : List SampleRecord :=
  (BAP.mainRows es).map (resolveRecord es (scan_audio_files es).1)

/-- `by_engine`, grouped by the raw provider string. -/
def mainGroups (es : List FsEntry) : List (String × List SampleRecord) :=
  groupByKey BAP.engineKey (BAP.mainResolved es)

/-- The provider groups in page-emission order:
`sorted(by_engine.items(), key=lambda kv: kv[0].lower())`. -/
def mainPages (es : List FsEntry) : List (String × List SampleRecord) :=
  pySorted (fun g => pyLower g.1) strLt (BAP.mainGroups es)

/-- The links of the emitted `index.html`: one `(href, provider)` entry
per group, with `href = engine.lower() + '.html'`. -/
def indexLinks (es : List FsEntry) : List (String × String) :=
  (BAP.mainPages es).map (fun g => (pyLower g.1 ++ ".html", g.1))

/-- `main` of `src/build_audio_pages.py`, abstracted as for the other
script; group pages are written at `<engine lowercased>.html`. -/
def mainModel (es : List FsEntry) : Nat × List (String × String) :=
  if find_csvs es = [] then (2, [])
  else
    (0, (BAP.mainPages es).map (fun g => (pyLower g.1 ++ ".html", g.1))
      ++ [("index.html", "index")])

end BAP

/-- The content a path holds after all writes: the last write wins
(later `write_text` calls overwrite earlier ones). -/
def finalContent (writes : List (String × String)) (path : String) : Option String :=
  ((writes.filter (fun w => w.1 == path)).map (fun w => w.2)).getLast?

theorem mem_of_mem_dedupeLoop (l : List SampleRecord) (seen : List String)
    (e : SampleRecord) (h : e ∈ dedupeLoop l seen) : e ∈ l := by
  induction l generalizing seen with
  | nil => simp [dedupeLoop] at h
  | cons a l ih =>
    rw [dedupeLoop] at h
    by_cases ha : voiceKeyOf a = ""
    · rw [if_pos ha] at h
      rcases List.mem_cons.mp h with he | he
      · exact he ▸ List.mem_cons_self a l
      · exact List.mem_cons_of_mem a (ih seen he)
    · rw [if_neg ha] at h
      by_cases hs : voiceKeyOf a ∈ seen
      · rw [if_pos hs] at h
        exact List.mem_cons_of_mem a (ih seen h)
      · rw [if_neg hs] at h
        rcases List.mem_cons.mp h with he | he
        · exact he ▸ List.mem_cons_self a l
        · exact List.mem_cons_of_mem a (ih _ he)

theorem voiceKey_not_seen_of_mem_dedupeLoop (l : List SampleRecord)
    (seen : List String) (e : SampleRecord) (h : e ∈ dedupeLoop l seen)
    (hne : voiceKeyOf e ≠ "") : voiceKeyOf e ∉ seen := by
  induction l generalizing seen with
  | nil => simp [dedupeLoop] at h
  | cons a l ih =>
    rw [dedupeLoop] at h
    by_cases ha : voiceKeyOf a = ""
    · rw [if_pos ha] at h
      rcases List.mem_cons.mp h with he | he
      · exact absurd (he ▸ hne) (by simp [ha])
      · exact ih seen he
    · rw [if_neg ha] at h
      by_cases hs : voiceKeyOf a ∈ seen
      · rw [if_pos hs] at h
        exact ih seen h
      · rw [if_neg hs] at h
        rcases List.mem_cons.mp h with he | he
        · exact he ▸ hs
        · exact fun hmem =>
            ih _ he (List.mem_cons_of_mem _ hmem)

theorem pairwise_dedupeLoop (l : List SampleRecord) (seen : List String) :
    (dedupeLoop l seen).Pairwise
      (fun a b => ¬(voiceKeyOf a = voiceKeyOf b ∧ voiceKeyOf a ≠ "")) := by
  induction l generalizing seen with
  | nil => exact List.Pairwise.nil
  | cons a l ih =>
    rw [dedupeLoop]
    by_cases ha : voiceKeyOf a = ""
    · rw [if_pos ha, List.pairwise_cons]
      refine ⟨?_, ih seen⟩
      rintro b _ ⟨_, hne⟩
      exact hne ha
    · rw [if_neg ha]
      by_cases hs : voiceKeyOf a ∈ seen
      · rw [if_pos hs]
        exact ih seen
      · rw [if_neg hs, List.pairwise_cons]
        refine ⟨?_, ih _⟩
        rintro b hb ⟨heq, hne⟩
        have hbne : voiceKeyOf b ≠ "" := heq ▸ hne
        have := voiceKey_not_seen_of_mem_dedupeLoop l _ b hb hbne
        exact this (heq ▸ List.mem_cons_self _ seen)

theorem mem_dedupeLoop_of_empty_key (l : List SampleRecord) (seen : List String)
    (e : SampleRecord) (hmem : e ∈ l) (hkey : voiceKeyOf e = "") :
    e ∈ dedupeLoop l seen := by
  induction l generalizing seen with
  | nil => simp at hmem
  | cons a l ih =>
    rw [dedupeLoop]
    rcases List.mem_cons.mp hmem with he | he
    · rw [if_pos (he ▸ hkey), he]
      exact List.mem_cons_self _ _
    · by_cases ha : voiceKeyOf a = ""
      · rw [if_pos ha]
        exact List.mem_cons_of_mem a (ih seen he)
      · rw [if_neg ha]
        by_cases hs : voiceKeyOf a ∈ seen
        · rw [if_pos hs]
          exact ih seen he
        · rw [if_neg hs]
          exact List.mem_cons_of_mem a (ih _ he)

theorem dedupeLoop_filter (k : String) (hk : k ≠ "") (l : List SampleRecord)
    (seen : List String) :
    (dedupeLoop l seen).filter (fun e => voiceKeyOf e == k)
      = if k ∈ seen then [] else (l.filter (fun e => voiceKeyOf e == k)).take 1 := by
  induction l generalizing seen with
  | nil => simp [dedupeLoop]
  | cons a l ih =>
    rw [dedupeLoop]
    by_cases ha : voiceKeyOf a = ""
    · have hak : (voiceKeyOf a == k) = false := by
        simp [ha]
        exact fun h => hk h.symm
      rw [if_pos ha, List.filter_cons, hak, if_neg Bool.false_ne_true, ih seen,
        List.filter_cons, hak, if_neg Bool.false_ne_true]
    · rw [if_neg ha]
      by_cases hs : voiceKeyOf a ∈ seen
      · rw [if_pos hs, ih seen]
        by_cases hks : k ∈ seen
        · rw [if_pos hks, if_pos hks]
        · have hak : (voiceKeyOf a == k) = false := by
            simp
            exact fun h => hks (h ▸ hs)
          rw [if_neg hks, if_neg hks, List.filter_cons, hak, if_neg Bool.false_ne_true]
      · rw [if_neg hs]
        by_cases hak : voiceKeyOf a = k
        · have hks : k ∉ seen := hak ▸ hs
          have hbeq : (voiceKeyOf a == k) = true := by simp [hak]
          rw [List.filter_cons, hbeq, if_pos rfl, ih _, if_pos (hak ▸ List.mem_cons_self _ _),
            if_neg hks, List.filter_cons, hbeq, if_pos rfl]
          rfl
        · have hbeq : (voiceKeyOf a == k) = false := by simp [hak]
          have hmem : (k ∈ voiceKeyOf a :: seen) ↔ (k ∈ seen) := by
            constructor
            · intro h
              rcases List.mem_cons.mp h with h | h
              · exact absurd h.symm hak
              · exact h
            · exact List.mem_cons_of_mem _
          rw [List.filter_cons, hbeq, if_neg Bool.false_ne_true, ih _,
            List.filter_cons, hbeq, if_neg Bool.false_ne_true]
          by_cases hks : k ∈ seen
          · rw [if_pos (hmem.mpr hks), if_pos hks]
          · rw [if_neg (fun h => hks (hmem.mp h)), if_neg hks]

theorem dedupSortKey_eq_spec (e : SampleRecord) (h1 : pyStrip e.engine = e.engine)
    (h2 : e.engine ≠ "") : dedupSortKey e = specDedupKey e := by
  unfold dedupSortKey specDedupKey engine_slug
  rw [if_neg h2, h1]

/-- The resolved azure record of the specification's dedup example. -/
def sampleJaneAzure : SampleRecord :=
  ⟨"voices.csv", 2, "en-US", "azure", "Jane", "Female", "jane.aac", "jane.aac", true⟩

/-- The unresolved aws record of the specification's dedup example. -/
def sampleJaneAws : SampleRecord :=
  ⟨"voices.csv", 3, "en-US", "aws", "Jane", "Female", "jane_missing.m4a",
    "jane_missing.m4a", false⟩

/-- A record whose voice identifier trims to the empty string. -/
def sampleNoVoice : SampleRecord :=
  ⟨"voices.csv", 4, "en-US", "azure", "  ", "Female", "x.aac", "x.aac", false⟩

/-- C1: in by-language mode (where loader-produced records carry trimmed,
non-empty provider fields), for every non-empty voice key
`dedupe_by_voice` retains exactly the first record of the colliding set
under the specification's order — presence flag descending, provider
name case-folded ascending, voice string ascending, filename ascending —
and in particular, when exactly two records collide and exactly one
resolved to an existing file, the resolved record is the retained one. -/
theorem C1_dedupe_retention (entries : List SampleRecord) (k : String)
    (hEng : ∀ e ∈ entries, pyStrip e.engine = e.engine ∧ e.engine ≠ "")
    (hk : k ≠ "") :
    (dedupe_by_voice entries).filter (fun e => voiceKeyOf e == k)
        = (pySorted specDedupKey dedupKeyLt
            (entries.filter (fun e => voiceKeyOf e == k))).take 1
      ∧ ∀ e₁ e₂, entries.filter (fun e => voiceKeyOf e == k) = [e₁, e₂] →
          e₁.present = true → e₂.present = false →
          (dedupe_by_voice entries).filter (fun e => voiceKeyOf e == k) = [e₁] := by
  have hmain : (dedupe_by_voice entries).filter (fun e => voiceKeyOf e == k)
      = (pySorted specDedupKey dedupKeyLt
          (entries.filter (fun e => voiceKeyOf e == k))).take 1 := by
    unfold dedupe_by_voice
    rw [dedupeLoop_filter k hk _ [], if_neg (List.not_mem_nil k),
      filter_pySorted strictCmp_dedupKeyLt]
    congr 1
    apply pySorted_congr
    intro x hx
    have hx' := List.mem_of_mem_filter hx
    exact dedupSortKey_eq_spec x (hEng x hx').1 (hEng x hx').2
  refine ⟨hmain, ?_⟩
  intro e₁ e₂ heq he1 he2
  rw [hmain, heq]
  have hlt : dedupKeyLt (specDedupKey e₂) (specDedupKey e₁) = false := by
    simp [specDedupKey, he1, he2, dedupKeyLt, lexLt, boolLt]
  simp [pySorted, insertSorted, hlt]

/-- C1 witness: the specification's two-record example instantiates the
theorem at a concrete colliding set. -/
theorem C1_dedupe_retention_witness :
    (dedupe_by_voice [sampleJaneAws, sampleJaneAzure]).filter
        (fun e => voiceKeyOf e == "jane")
      = (pySorted specDedupKey dedupKeyLt
          ([sampleJaneAws, sampleJaneAzure].filter
            (fun e => voiceKeyOf e == "jane"))).take 1 :=
  (C1_dedupe_retention [sampleJaneAws, sampleJaneAzure] "jane"
    (by decide) (by decide)).1

/-- C2: the deduplication output never holds two records with the same
non-empty case-folded trimmed voice key, and every input record whose
trimmed voice identifier is empty is kept. -/
theorem C2_dedupe_invariants (entries : List SampleRecord) :
    (dedupe_by_voice entries).Pairwise
        (fun a b => ¬(voiceKeyOf a = voiceKeyOf b ∧ voiceKeyOf a ≠ "")) ∧
      ∀ e ∈ entries, pyStrip e.voice = "" → e ∈ dedupe_by_voice entries := by
  constructor
  · exact pairwise_dedupeLoop _ []
  · intro e hmem hempty
    apply mem_dedupeLoop_of_empty_key
    · exact (mem_pySorted dedupSortKey dedupKeyLt entries e).mpr hmem
    · unfold voiceKeyOf
      rw [hempty, pyLower_empty]

/-- C2 witness: a concrete empty-voice record is kept. -/
theorem C2_dedupe_invariants_witness :
    sampleNoVoice ∈ dedupe_by_voice [sampleJaneAzure, sampleNoVoice] :=
  (C2_dedupe_invariants [sampleJaneAzure, sampleNoVoice]).2 sampleNoVoice
    (by decide) (by decide)

theorem scanAux_lookup (es : List FsEntry) (m d : List (String × String)) (k : String) :
    alookup (scanAux es m d).1 k
      = match alookup m k with
        | some r => some r
        | none =>
          ((es.filter (fun e => isAudioFile e && audioKeyOf e == k)).head?).map
            (fun e => e.rel) := by
  induction es generalizing m d with
  | nil => cases h : alookup m k <;> simp [scanAux, h]
  | cons e es ih =>
    rw [scanAux]
    by_cases hae : isAudioFile e
    · rw [if_pos hae]
      by_cases hk' : audioKeyOf e = k
      · subst hk'
        cases hm : alookup m (audioKeyOf e) with
        | some r =>
          rw [if_pos (by simp [hm]), ih]
          simp [hm, List.filter_cons, hae]
        | none =>
          rw [if_neg (by simp [hm]), ih, alookup_append]
          simp [hm, List.filter_cons, hae, alookup]
      · have hbeq : (audioKeyOf e == k) = false := by simp [hk']
        cases hm : alookup m (audioKeyOf e) with
        | some r =>
          rw [if_pos (by simp [hm]), ih]
          simp [List.filter_cons, hbeq]
        | none =>
          rw [if_neg (by simp [hm]), ih, alookup_append]
          cases halm : alookup m k <;> simp [halm, alookup, hk', List.filter_cons, hbeq]
    · have hbe : isAudioFile e = false := Bool.eq_false_iff.mpr hae
      rw [if_neg hae, ih]
      simp [List.filter_cons, hbe]

theorem scanAux_dups (es : List FsEntry) (m d : List (String × String)) (k : String) :
    (scanAux es m d).2.filter (fun w => w.1 == k)
      = d.filter (fun w => w.1 == k)
        ++ if (alookup m k).isSome
           then (es.filter (fun e => isAudioFile e && audioKeyOf e == k)).map
               (fun e => (k, e.rel))
           else ((es.filter (fun e => isAudioFile e && audioKeyOf e == k)).drop 1).map
               (fun e => (k, e.rel)) := by
  induction es generalizing m d with
  | nil => cases h : alookup m k <;> simp [scanAux, h]
  | cons e es ih =>
    rw [scanAux]
    by_cases hae : isAudioFile e
    · rw [if_pos hae]
      by_cases hk' : audioKeyOf e = k
      · subst hk'
        cases hm : alookup m (audioKeyOf e) with
        | some r =>
          rw [if_pos (by simp [hm]), ih]
          simp [hm, List.filter_cons, hae, List.filter_append, alookup]
        | none =>
          rw [if_neg (by simp [hm]), ih, alookup_append]
          simp [hm, List.filter_cons, hae, alookup]
      · have hbeq : (audioKeyOf e == k) = false := by simp [hk']
        cases hm : alookup m (audioKeyOf e) with
        | some r =>
          rw [if_pos (by simp [hm]), ih]
          simp [List.filter_cons, hbeq, List.filter_append]
        | none =>
          rw [if_neg (by simp [hm]), ih, alookup_append]
          cases halm : alookup m k <;> simp [halm, alookup, hk', List.filter_cons, hbeq]
    · have hbe : isAudioFile e = false := Bool.eq_false_iff.mpr hae
      rw [if_neg hae, ih]
      simp [List.filter_cons, hbe]

/-- C3: the audio index maps each lowercased basename to the relative
path of the first audio-extension file of that basename in traversal
order; every later file with that basename lands in the duplicate list
(in order); the index has an entry for a key exactly when some regular
file with an allowed extension bears it; and (for traversals whose
relative paths are distinct, as on a real filesystem) no duplicate
observation is the mapping's value. -/
theorem C3_scan_index (es : List FsEntry) (k : String) :
    alookup (scan_audio_files es).1 k
        = ((es.filter (fun e => isAudioFile e && audioKeyOf e == k)).head?).map
            (fun e => e.rel)
      ∧ ((scan_audio_files es).2.filter (fun w => w.1 == k)).map (fun w => w.2)
        = ((es.filter (fun e => isAudioFile e && audioKeyOf e == k)).drop 1).map
            (fun e => e.rel)
      ∧ (alookup (scan_audio_files es).1 k ≠ none
          ↔ ∃ e ∈ es, (isAudioFile e && audioKeyOf e == k) = true)
      ∧ ((es.map (fun e => e.rel)).Nodup →
          ∀ r ∈ ((scan_audio_files es).2.filter (fun w => w.1 == k)).map (fun w => w.2),
            alookup (scan_audio_files es).1 k ≠ some r) := by
  have h1 : alookup (scan_audio_files es).1 k
      = ((es.filter (fun e => isAudioFile e && audioKeyOf e == k)).head?).map
          (fun e => e.rel) := by
    have := scanAux_lookup es [] [] k
    simpa [scan_audio_files, alookup] using this
  have h2 : ((scan_audio_files es).2.filter (fun w => w.1 == k)).map (fun w => w.2)
      = ((es.filter (fun e => isAudioFile e && audioKeyOf e == k)).drop 1).map
          (fun e => e.rel) := by
    have := scanAux_dups es [] [] k
    rw [scan_audio_files, this]
    simp only [alookup, Option.isSome_none, Bool.false_eq_true, if_false,
      List.filter_nil, List.nil_append, List.map_map]
    rfl
  refine ⟨h1, h2, ?_, ?_⟩
  · rw [h1]
    cases hl : es.filter (fun e => isAudioFile e && audioKeyOf e == k) with
    | nil =>
      simp only [List.head?_nil, Option.map_none]
      constructor
      · intro hne
        exact absurd rfl hne
      · rintro ⟨e, he, hp⟩ _
        have : e ∈ es.filter (fun e => isAudioFile e && audioKeyOf e == k) :=
          List.mem_filter.mpr ⟨he, hp⟩
        rw [hl] at this
        exact List.not_mem_nil e this
    | cons e0 rest =>
      simp only [List.head?_cons, Option.map_some]
      constructor
      · intro _
        have he0 : e0 ∈ es.filter (fun e => isAudioFile e && audioKeyOf e == k) :=
          hl ▸ List.mem_cons_self e0 rest
        have := List.mem_filter.mp he0
        exact ⟨e0, this.1, this.2⟩
      · intro _ h
        exact Option.noConfusion h
  · intro hnodup r hr
    rw [h2] at hr
    rw [h1]
    cases hl : es.filter (fun e => isAudioFile e && audioKeyOf e == k) with
    | nil =>
      rw [hl] at hr
      simp at hr
    | cons e0 rest =>
      rw [hl] at hr
      simp only [List.head?_cons, Option.map_some]
      intro hEq
      have hre : e0.rel = r := Option.some.inj hEq
      simp only [List.drop_succ_cons, List.drop_zero] at hr
      obtain ⟨e1, he1, hrel⟩ := List.mem_map.mp hr
      have hnd : ((es.filter (fun e => isAudioFile e && audioKeyOf e == k)).map
          (fun e => e.rel)).Nodup :=
        hnodup.sublist ((List.filter_sublist es).map (fun e => e.rel))
      rw [hl, List.map_cons, List.nodup_cons] at hnd
      exact hnd.1 (hre ▸ hrel ▸ List.mem_map_of_mem (fun e => e.rel) he1)

/-- C3 witness: two files sharing the basename `x.aac`; the second is a
duplicate and is not the canonical mapping value. -/
theorem C3_scan_index_witness :
    alookup (scan_audio_files [⟨"a/x.aac", true, []⟩, ⟨"b/X.AAC", true, []⟩]).1 "x.aac"
      ≠ some "b/X.AAC" :=
  (C3_scan_index [⟨"a/x.aac", true, []⟩, ⟨"b/X.AAC", true, []⟩] "x.aac").2.2.2
    (by decide) "b/X.AAC" (by decide)

/-- C4: when the referenced filename is non-empty, its lowercased
basename is a key of the audio index, and the literal joined path does
not exist as a regular file, `resolve_audio_path` returns the indexed
path with presence true. -/
theorem C4_resolve_basename_hit (es : List FsEntry) (filename : String)
    (idx : List (String × String)) (rel : String)
    (hne : filename ≠ "")
    (hlit : fileExistsAt es filename = false)
    (hkey : alookup idx (pyLower (baseNameOf filename)) = some rel) :
    resolve_audio_path es filename idx = (rel, true) := by
  unfold resolve_audio_path
  rw [if_neg hne, if_neg (by simp [hlit]), hkey]

/-- C4 witness: `ghost/x.AAC` does not exist literally, but its
lowercased basename is indexed. -/
theorem C4_resolve_basename_hit_witness :
    resolve_audio_path [⟨"a/x.aac", true, []⟩] "ghost/x.AAC" [("x.aac", "a/x.aac")]
      = ("a/x.aac", true) :=
  C4_resolve_basename_hit [⟨"a/x.aac", true, []⟩] "ghost/x.AAC"
    [("x.aac", "a/x.aac")] "a/x.aac" (by decide) (by decide) (by decide)

/-- C5: for an empty filename, or whenever every step of the fallback
chain misses (no literal file, no basename key, no stem-plus-extension
key), resolution returns the original filename string unchanged with
presence false; the embedding is a total function, so the miss is a
normal result rather than an exception. -/
theorem C5_resolve_miss (es : List FsEntry) (filename : String)
    (idx : List (String × String))
    (h : filename = ""
      ∨ (fileExistsAt es filename = false
          ∧ alookup idx (pyLower (baseNameOf filename)) = none
          ∧ ∀ ext ∈ AUDIO_EXTS,
              alookup idx (pyLower (pyStem (baseNameOf filename) ++ ext)) = none)) :
    resolve_audio_path es filename idx = (filename, false) := by
  rcases h with h | ⟨hlit, hbase, hext⟩
  · unfold resolve_audio_path
    rw [if_pos h]
  · by_cases hfe : filename = ""
    · unfold resolve_audio_path
      rw [if_pos hfe]
    · unfold resolve_audio_path
      rw [if_neg hfe, if_neg (by simp [hlit]), hbase]
      have h1 := hext ".aac" (by simp [AUDIO_EXTS])
      have h2 := hext ".acc" (by simp [AUDIO_EXTS])
      have h3 := hext ".m4a" (by simp [AUDIO_EXTS])
      simp [AUDIO_EXTS, List.findSome?_cons, h1, h2, h3]

/-- C5 witness: a filename missing under every fallback step resolves to
itself with presence false. -/
theorem C5_resolve_miss_witness :
    resolve_audio_path [⟨"a/x.aac", true, []⟩] "zzz.mp3" [("x.aac", "a/x.aac")]
      = ("zzz.mp3", false) :=
  C5_resolve_miss [⟨"a/x.aac", true, []⟩] "zzz.mp3" [("x.aac", "a/x.aac")]
    (Or.inr ⟨by decide, by decide, by decide⟩)

theorem mem_of_lastIdxOf_isSome (x : String) (l : List String)
    (h : lastIdxOf x l ≠ none) : x ∈ l := by
  induction l with
  | nil => simp [lastIdxOf] at h
  | cons y ys ih =>
    rw [lastIdxOf] at h
    cases hys : lastIdxOf x ys with
    | some i => exact List.mem_cons_of_mem y (ih (by simp [hys]))
    | none =>
      rw [hys] at h
      by_cases hyx : y = x
      · exact hyx ▸ List.mem_cons_self y ys
      · rw [if_neg hyx] at h
        exact absurd rfl h

theorem pyStrip_csvGet (fieldnames cells : List String) (key : String) :
    pyStrip (csvGet fieldnames cells key) = csvGet fieldnames cells key :=
  pyStrip_idem _

theorem pyStrip_orUnknown (s : String) (h : pyStrip s = s) :
    pyStrip (orUnknown s) = orUnknown s := by
  unfold orUnknown
  by_cases hs : s = ""
  · rw [if_pos hs]
    decide
  · rw [if_neg hs]
    exact h

theorem orUnknown_ne_empty (s : String) : orUnknown s ≠ "" := by
  unfold orUnknown
  by_cases hs : s = ""
  · rw [if_pos hs]
    decide
  · rw [if_neg hs]
    exact hs

/-- C6 counterexample: the by-provider loader keeps an empty language
field as the empty string, not `"unknown"`, refuting the claim for that
loader at a concrete row. -/
theorem C6_loader_counterexample :
    (BAP.read_rows_from_csv "s.csv"
        [["lang", "engine", "voice", "gender", "filename"],
         ["", "az", "v", "g", "f"]]).map (fun r => r.lang) = [""]
      ∧ ("" : String) ≠ "unknown" :=
  ⟨by decide, by decide⟩

theorem read_rows_main_get? (source : String) (fieldnames : List String)
    (hne : fieldnames ≠ []) (rest : List (List String)) (i : Nat) (cells : List String)
    (hcells : (rest.filter (fun r => !r.isEmpty)).get? i = some cells) :
    (read_rows_from_csv source (fieldnames :: rest)).get? i
      = some ⟨source, i + 2, orUnknown (csvGet fieldnames cells "lang"),
          orUnknown (csvGet fieldnames cells "engine"), csvGet fieldnames cells "voice",
          csvGet fieldnames cells "gender", csvGet fieldnames cells "filename",
          "", false⟩ := by
  rw [read_rows_from_csv, if_neg hne, List.get?_map, List.get?_enum, hcells]
  rfl

theorem BAP.read_rows_bap_get? (source : String) (fieldnames : List String)
    (hne : fieldnames ≠ []) (rest : List (List String)) (i : Nat) (cells : List String)
    (hcells : (rest.filter (fun r => !r.isEmpty)).get? i = some cells) :
    (BAP.read_rows_from_csv source (fieldnames :: rest)).get? i
      = some ⟨source, i + 2, csvGet fieldnames cells "lang",
          csvGet fieldnames cells "engine", csvGet fieldnames cells "voice",
          csvGet fieldnames cells "gender", csvGet fieldnames cells "filename",
          "", false⟩ := by
  rw [BAP.read_rows_from_csv, if_neg hne, List.get?_map, List.get?_enum, hcells]
  rfl

/-- C6 (amended): every record parsed by either loader has all five
field values trimmed of surrounding whitespace (a missing header or
short row contributes the empty string through the same path); the
by-language loader turns an empty trimmed language/engine source value
into the literal `"unknown"` and otherwise keeps the trimmed value, so
its records are groupable; the by-provider loader stores every field as
the trimmed source value — an empty engine stays the empty string in
the record and the literal `"unknown"` appears only in its grouping
key; and a field whose header is absent from the source (shown for
`voice`) loads as the empty string. -/
theorem C6_loader_fields (source : String) (file : List (List String)) :
    (∀ r ∈ read_rows_from_csv source file,
        pyStrip r.lang = r.lang ∧ pyStrip r.engine = r.engine
          ∧ pyStrip r.voice = r.voice ∧ pyStrip r.gender = r.gender
          ∧ pyStrip r.filename = r.filename ∧ r.lang ≠ "" ∧ r.engine ≠ "")
      ∧ (∀ r ∈ BAP.read_rows_from_csv source file,
          pyStrip r.lang = r.lang ∧ pyStrip r.engine = r.engine
            ∧ pyStrip r.voice = r.voice ∧ pyStrip r.gender = r.gender
            ∧ pyStrip r.filename = r.filename ∧ BAP.engineKey r ≠ "")
      ∧ (∀ fieldnames rest, file = fieldnames :: rest →
          (∀ f ∈ fieldnames, pyLower (pyStrip f) ≠ "voice") →
          ∀ r ∈ read_rows_from_csv source file, r.voice = "")
      ∧ (∀ fieldnames rest, file = fieldnames :: rest → fieldnames ≠ [] →
          ∀ i cells, (rest.filter (fun r => !r.isEmpty)).get? i = some cells →
          ∃ r, (read_rows_from_csv source file).get? i = some r
            ∧ (csvGet fieldnames cells "lang" = "" → r.lang = "unknown")
            ∧ (csvGet fieldnames cells "lang" ≠ "" →
                r.lang = csvGet fieldnames cells "lang")
            ∧ (csvGet fieldnames cells "engine" = "" → r.engine = "unknown")
            ∧ (csvGet fieldnames cells "engine" ≠ "" →
                r.engine = csvGet fieldnames cells "engine")
            ∧ r.voice = csvGet fieldnames cells "voice"
            ∧ r.gender = csvGet fieldnames cells "gender"
            ∧ r.filename = csvGet fieldnames cells "filename")
      ∧ (∀ fieldnames rest, file = fieldnames :: rest → fieldnames ≠ [] →
          ∀ i cells, (rest.filter (fun r => !r.isEmpty)).get? i = some cells →
          ∃ r, (BAP.read_rows_from_csv source file).get? i = some r
            ∧ r.lang = csvGet fieldnames cells "lang"
            ∧ r.engine = csvGet fieldnames cells "engine"
            ∧ r.voice = csvGet fieldnames cells "voice"
            ∧ r.gender = csvGet fieldnames cells "gender"
            ∧ r.filename = csvGet fieldnames cells "filename"
            ∧ (csvGet fieldnames cells "engine" = "" →
                r.engine = "" ∧ BAP.engineKey r = "unknown")) := by
  refine ⟨?_, ?_, ?_, ?_, ?_⟩
  · intro r hmem
    cases file with
    | nil => simp [read_rows_from_csv] at hmem
    | cons fieldnames rest =>
      rw [read_rows_from_csv] at hmem
      by_cases hf : fieldnames = []
      · rw [if_pos hf] at hmem
        exact absurd hmem (List.not_mem_nil r)
      · rw [if_neg hf] at hmem
        obtain ⟨p, _, hr⟩ := List.mem_map.mp hmem
        rw [← hr]
        exact ⟨pyStrip_orUnknown _ (pyStrip_csvGet _ _ _),
          pyStrip_orUnknown _ (pyStrip_csvGet _ _ _),
          pyStrip_csvGet _ _ _, pyStrip_csvGet _ _ _, pyStrip_csvGet _ _ _,
          orUnknown_ne_empty _, orUnknown_ne_empty _⟩
  · intro r hmem
    cases file with
    | nil => simp [BAP.read_rows_from_csv] at hmem
    | cons fieldnames rest =>
      rw [BAP.read_rows_from_csv] at hmem
      by_cases hf : fieldnames = []
      · rw [if_pos hf] at hmem
        exact absurd hmem (List.not_mem_nil r)
      · rw [if_neg hf] at hmem
        obtain ⟨p, _, hr⟩ := List.mem_map.mp hmem
        rw [← hr]
        exact ⟨pyStrip_csvGet _ _ _, pyStrip_csvGet _ _ _, pyStrip_csvGet _ _ _,
          pyStrip_csvGet _ _ _, pyStrip_csvGet _ _ _, orUnknown_ne_empty _⟩
  · intro fieldnames rest hfile hnov r hmem
    subst hfile
    rw [read_rows_from_csv] at hmem
    by_cases hf : fieldnames = []
    · rw [if_pos hf] at hmem
      exact absurd hmem (List.not_mem_nil r)
    · rw [if_neg hf] at hmem
      obtain ⟨p, _, hr⟩ := List.mem_map.mp hmem
      rw [← hr]
      show csvGet fieldnames p.2 "voice" = ""
      have hmap : fieldMapGet fieldnames "voice" = "voice" := by
        unfold fieldMapGet
        have hnil : fieldnames.filter (fun k => pyLower (pyStrip k) == "voice") = [] := by
          rw [List.filter_eq_nil_iff]
          intro f hfm
          simp only [beq_iff_eq]
          exact hnov f hfm
        rw [hnil]
        rfl
      have hnone : lastIdxOf "voice" fieldnames = none := by
        cases h : lastIdxOf "voice" fieldnames with
        | none => rfl
        | some i =>
          have hm : "voice" ∈ fieldnames :=
            mem_of_lastIdxOf_isSome _ _ (by simp [h])
          exact absurd (by decide : pyLower (pyStrip "voice") = "voice") (hnov "voice" hm)
      unfold csvGet rowGetOrig
      rw [hmap, hnone]
      show pyStrip (Option.getD none "") = ""
      decide
  · intro fieldnames rest hfile hne i cells hcells
    subst hfile
    refine ⟨_, read_rows_main_get? source fieldnames hne rest i cells hcells,
      ?_, ?_, ?_, ?_, rfl, rfl, rfl⟩
    · intro h
      show orUnknown (csvGet fieldnames cells "lang") = "unknown"
      rw [orUnknown, if_pos h]
    · intro h
      show orUnknown (csvGet fieldnames cells "lang") = csvGet fieldnames cells "lang"
      rw [orUnknown, if_neg h]
    · intro h
      show orUnknown (csvGet fieldnames cells "engine") = "unknown"
      rw [orUnknown, if_pos h]
    · intro h
      show orUnknown (csvGet fieldnames cells "engine") = csvGet fieldnames cells "engine"
      rw [orUnknown, if_neg h]
  · intro fieldnames rest hfile hne i cells hcells
    subst hfile
    refine ⟨_, BAP.read_rows_bap_get? source fieldnames hne rest i cells hcells,
      rfl, rfl, rfl, rfl, rfl, ?_⟩
    intro h
    refine ⟨h, ?_⟩
    show BAP.engineKey _ = "unknown"
    unfold BAP.engineKey
    show orUnknown (csvGet fieldnames cells "engine") = "unknown"
    rw [orUnknown, if_pos h]

/-- C6 witness: concrete files — the by-language loader trims and turns
the empty language into the literal `"unknown"` while keeping a
non-empty engine; the by-provider loader stores the empty engine as the
empty string and substitutes `"unknown"` only in the grouping key; a
file lacking a `voice` header loads empty voices. -/
theorem C6_loader_fields_witness :
    (∀ r ∈ read_rows_from_csv "s.csv" [["LANG", "ENGINE"], [" en ", ""]],
        pyStrip r.lang = r.lang ∧ pyStrip r.engine = r.engine
          ∧ pyStrip r.voice = r.voice ∧ pyStrip r.gender = r.gender
          ∧ pyStrip r.filename = r.filename ∧ r.lang ≠ "" ∧ r.engine ≠ "")
      ∧ (∀ r ∈ read_rows_from_csv "s.csv" [["LANG", "ENGINE"], [" en ", ""]],
          r.voice = "")
      ∧ (∃ r, (read_rows_from_csv "s.csv"
            [["lang", "engine", "voice", "gender", "filename"],
             ["", "Az", " v ", "g", "f"]]).get? 0 = some r
          ∧ r.lang = "unknown" ∧ r.engine = "Az")
      ∧ (∃ r, (BAP.read_rows_from_csv "s.csv"
            [["lang", "engine", "voice", "gender", "filename"],
             ["x", "", "v", "g", "f"]]).get? 0 = some r
          ∧ r.engine = "" ∧ BAP.engineKey r = "unknown") := by
  refine ⟨(C6_loader_fields "s.csv" [["LANG", "ENGINE"], [" en ", ""]]).1,
    (C6_loader_fields "s.csv" [["LANG", "ENGINE"], [" en ", ""]]).2.2.1
      ["LANG", "ENGINE"] [[" en ", ""]] rfl (by decide), ?_, ?_⟩
  · obtain ⟨r, hr, h1, _, _, h4, _, _, _⟩ :=
      (C6_loader_fields "s.csv"
          [["lang", "engine", "voice", "gender", "filename"],
           ["", "Az", " v ", "g", "f"]]).2.2.2.1
        ["lang", "engine", "voice", "gender", "filename"]
        [["", "Az", " v ", "g", "f"]] rfl (by decide) 0
        ["", "Az", " v ", "g", "f"] (by decide)
    refine ⟨r, hr, h1 (by decide), ?_⟩
    rw [h4 (by decide)]
    decide
  · obtain ⟨r, hr, _, _, _, _, _, h6⟩ :=
      (C6_loader_fields "s.csv"
          [["lang", "engine", "voice", "gender", "filename"],
           ["x", "", "v", "g", "f"]]).2.2.2.2
        ["lang", "engine", "voice", "gender", "filename"]
        [["x", "", "v", "g", "f"]] rfl (by decide) 0
        ["x", "", "v", "g", "f"] (by decide)
    exact ⟨r, hr, (h6 (by decide)).1, (h6 (by decide)).2⟩

/-- C7: a tabular source with no header row — no rows at all, or a blank
first line, either way DictReader's falsy `fieldnames` — yields zero
records from both loaders, returned normally rather than raised. -/
theorem C7_headerless (source : String) (rest : List (List String)) :
    read_rows_from_csv source [] = []
      ∧ read_rows_from_csv source ([] :: rest) = []
      ∧ BAP.read_rows_from_csv source [] = []
      ∧ BAP.read_rows_from_csv source ([] :: rest) = [] := by
  refine ⟨rfl, ?_, rfl, ?_⟩ <;> simp [read_rows_from_csv, BAP.read_rows_from_csv]

/-- C8: with no tabular sources under the root, the by-language driver
returns the distinct status 2 and writes nothing; with at least one
tabular source it returns 0 and writes exactly one page per language
group (in case-folded key order) followed by the index page — no
condition on the referenced audio files existing. -/
theorem C8_exit_behaviour (es : List FsEntry) :
    (find_csvs es = [] → mainModel es = (2, []))
      ∧ (find_csvs es ≠ [] →
          (mainModel es).1 = 0
            ∧ (mainModel es).2
              = (mainPages es).map (fun g => (g.1 ++ ".html", g.1))
                ++ [("index.html", "index")]) := by
  constructor
  · intro h
    unfold mainModel
    rw [if_pos h]
  · intro h
    unfold mainModel
    rw [if_neg h]
    exact ⟨rfl, rfl⟩

/-- C8 witness: an empty root exits 2 with no writes; a root with one
tabular source whose referenced audio is absent still exits 0. -/
theorem C8_exit_behaviour_witness :
    mainModel [] = (2, [])
      ∧ (mainModel [⟨"voices.csv", true,
          [["lang", "engine", "voice", "gender", "filename"],
           ["en-US", "azure", "Jane", "Female", "missing.aac"]]⟩]).1 = 0 :=
  ⟨(C8_exit_behaviour []).1 rfl,
    ((C8_exit_behaviour [⟨"voices.csv", true,
        [["lang", "engine", "voice", "gender", "filename"],
         ["en-US", "azure", "Jane", "Female", "missing.aac"]]⟩]).2 (by decide)).1⟩

/-- C9 counterexample: `lang_name` maps the empty (unmapped,
non-compound) code to `"unknown"`, and a whitespace-padded unmapped code
to its trimmed form — in both cases not the raw code unchanged. -/
theorem C9_lang_name_counterexample :
    lang_name "" = "unknown" ∧ ("unknown" : String) ≠ ""
      ∧ lang_name " xx-YY " = "xx-YY" ∧ (" xx-YY " : String) ≠ "xx-YY" :=
  ⟨by decide, by decide, by decide, by decide⟩

/-- C9 (amended): `lang_name` is a total pure function of the trimmed
code: a table hit returns the table's name; otherwise the compound
`zh-CN-<region>` shape (first two components case-insensitive) renders
`Chinese (<Region>, China)` with the region underscore-to-space mapped
and title-cased; every other code is returned trimmed, except that an
empty or whitespace-only input yields `"unknown"`. -/
theorem C9_lang_name_total (code : String) :
    (∀ n, alookup CODE_TO_NAME (pyStrip code) = some n → lang_name code = n)
      ∧ (alookup CODE_TO_NAME (pyStrip code) = none →
          ∀ parts, parts = splitOnChar '-' (pyStrip code) →
          (3 ≤ parts.length ∧ pyLower (parts.headD "") = "zh"
              ∧ pyUpper (parts.getD 1 "") = "CN" →
            lang_name code
              = "Chinese ("
                ++ pyTitle (pyUnderscoreToSpace (joinDash (parts.drop 2)))
                ++ ", China)")
          ∧ (¬(3 ≤ parts.length ∧ pyLower (parts.headD "") = "zh"
                ∧ pyUpper (parts.getD 1 "") = "CN") →
              pyStrip code ≠ "" → lang_name code = pyStrip code))
      ∧ (alookup CODE_TO_NAME (pyStrip code) = none → pyStrip code = "" →
          lang_name code = "unknown") := by
  refine ⟨?_, ?_, ?_⟩
  · intro n h
    simp only [lang_name]
    rw [h]
  · intro hnone parts hparts
    subst hparts
    constructor
    · intro hshape
      simp only [lang_name]
      rw [hnone, if_pos hshape]
    · intro hnshape hne
      simp only [lang_name]
      rw [hnone, if_neg hnshape, if_neg hne]
  · intro hnone hempty
    simp only [lang_name]
    rw [hnone, hempty]
    rw [if_neg (by decide), if_pos rfl]

/-- C9 witness: a table code, a compound regional code, and an unmapped
code, each through its case of the amended statement. -/
theorem C9_lang_name_total_witness :
    lang_name "en-US" = "English (United States)"
      ∧ lang_name "zh-CN-foo_bar"
        = "Chinese ("
          ++ pyTitle (pyUnderscoreToSpace (joinDash
              ((splitOnChar '-' (pyStrip "zh-CN-foo_bar")).drop 2)))
          ++ ", China)"
      ∧ lang_name "xx-YY" = pyStrip "xx-YY" :=
  ⟨(C9_lang_name_total "en-US").1 "English (United States)" (by decide),
    ((C9_lang_name_total "zh-CN-foo_bar").2.1 (by decide) _ rfl).1 (by decide),
    ((C9_lang_name_total "xx-YY").2.1 (by decide) _ rfl).2 (by decide) (by decide)⟩

/-- A traversal with one tabular source whose two rows carry providers
differing only in letter case. -/
def caseCollideFs : List FsEntry :=
  [⟨"voices.csv", true,
    [["LANG", "ENGINE", "VOICE", "GENDER", "FILENAME"],
     ["en", "Azure", "v1", "F", "x1.aac"],
     ["en", "azure", "v2", "F", "x2.aac"]]⟩]

/-- C10: grouping by the raw provider string makes `"Azure"` and
`"azure"` two distinct groups, yet both group pages are written to the
single path `azure.html`; the page written later (the `azure` group's)
is the one that survives, and the emitted index links two entries to
that one file. -/
theorem C10_provider_case_collision :
    (BAP.mainGroups caseCollideFs).map (fun g => g.1) = ["Azure", "azure"]
      ∧ ("Azure" : String) ≠ "azure"
      ∧ BAP.mainModel caseCollideFs
        = (0, [("azure.html", "Azure"), ("azure.html", "azure"),
            ("index.html", "index")])
      ∧ finalContent (BAP.mainModel caseCollideFs).2 "azure.html" = some "azure"
      ∧ BAP.indexLinks caseCollideFs
        = [("azure.html", "Azure"), ("azure.html", "azure")] :=
  ⟨by decide, by decide, by decide, by decide, by decide⟩
